import Mathlib

/-!
Shallow embedding of `repo/modules.go` (bazel-gazelle): the module-resolution
run `importRepoRulesModules` together with its helpers `copyGoModToTemp`,
`goListModules`, `goModDownload` and the `go.sum` merge loop.

Modelling conventions:
* The filesystem is an association list from paths to file contents plus a
  list of existing directories; `os.RemoveAll`, `os.Remove`, `os.Create` and
  `io.Copy` become explicit state transformers over it.
* Fallible operating-system and subprocess steps are driven by a `GoEnv`
  record: each `Bool` flag forces the corresponding failure (modelling e.g. a
  permission error), and the two subprocess invocations (`go list -m -json
  all` and `go mod download -json`) are oracles whose already-decoded record
  streams are supplied by the environment (a decode failure of the JSON
  stream is folded into the oracle returning an error, since the Go code
  aborts the whole run in both cases).  Following the code's
  `cmd.Dir = tempDir` the oracles may rewrite the copied manifest inside the
  temporary directory and nothing else.
* `log.Printf` appends to a log list, and each `go mod download` invocation
  records its argument batch in `dlCalls`, so that invocation counting is
  observable.
* Go's `map[string]*module` is modelled as an association list with
  unique keys (insertion replaces an existing key in place); iteration order
  of the model is the list order.
-/

deriving instance DecidableEq for Except

namespace Gazelle

/-!
### String primitives

The Go code uses `strings`/`bytes`/`filepath` helpers; Lean's built-in
counterparts are implemented over `Substring` positions with well-founded
recursion, which the kernel cannot evaluate, so the handful of primitives
the source needs are modelled structurally over the character list of a
string.  Whitespace is the ASCII whitespace class of `unicode.IsSpace`.
-/

/-- The ASCII part of Go's `unicode.IsSpace` class used by `bytes.TrimSpace`
and `bytes.Fields`. -/
def isSpaceChar (c : Char) : Bool :=
  c = ' ' || c = '\t' || c = '\n' || c = '\r' || c = '\x0b' || c = '\x0c'

/-- `pre` is a prefix of the second list (`strings.HasPrefix` on
character lists). -/
def listIsPrefixOf : List Char → List Char → Bool
  | [], _ => true
  | _ :: _, [] => false
  | a :: as, b :: bs => a = b && listIsPrefixOf as bs

/-- `strings.HasPrefix s pre`. -/
def strStartsWith (s pre : String) : Bool := listIsPrefixOf pre.data s.data

/-- `strings.HasSuffix s suf`. -/
def strEndsWith (s suf : String) : Bool :=
  listIsPrefixOf suf.data.reverse s.data.reverse

/-- `bytes.TrimSpace` on a character list. -/
def trimChars (cs : List Char) : List Char :=
  ((cs.dropWhile isSpaceChar).reverse.dropWhile isSpaceChar).reverse

/-- Worker for `bytes.Fields`: `cur` is the reversed current field. -/
def fieldsGo : List Char → List Char → List String
  | cur, [] => if cur = [] then [] else [String.mk cur.reverse]
  | cur, c :: cs =>
    if isSpaceChar c then
      if cur = [] then fieldsGo [] cs else String.mk cur.reverse :: fieldsGo [] cs
    else fieldsGo (c :: cur) cs

/-- Worker for splitting on a separator character: `cur` is the reversed
current chunk. -/
def splitChGo (sep : Char) : List Char → List Char → List String
  | cur, [] => [String.mk cur.reverse]
  | cur, c :: cs =>
    if c = sep then String.mk cur.reverse :: splitChGo sep [] cs
    else splitChGo sep (c :: cur) cs

/-- Split a string on a one-character separator (`bytes.Split` with a
single-byte separator, `strings.Split` on `"/"`). -/
def splitCh (sep : Char) (s : String) : List String := splitChGo sep [] s.data

/-- Lexicographic `≤` on character lists: Go compares strings byte-wise, and
byte-wise order of UTF-8 agrees with code-point order. -/
def lexLe : List Char → List Char → Bool
  | [], _ => true
  | _ :: _, [] => false
  | a :: as, b :: bs => if a < b then true else if b < a then false else lexLe as bs

/-- Lexicographic `<` on character lists. -/
def lexLt : List Char → List Char → Bool
  | _, [] => false
  | [], _ :: _ => true
  | a :: as, b :: bs => if a < b then true else if b < a then false else lexLt as bs

/-- Go's `s <= t` on strings. -/
def strLe (a b : String) : Bool := lexLe a.data b.data

/-- Go's `s < t` on strings (the comparator given to `sort.Slice`). -/
def strLt (a b : String) : Bool := lexLt a.data b.data

/-- The `Replace` field of the decoded `module` struct: `{Path, Version string}`. -/
structure Replace where
  path : String
  version : String
deriving DecidableEq

/-- The decoded `module` struct of `importRepoRulesModules`:
`Path, Version, Sum string; Main bool; Replace *struct{Path, Version string}`. -/
structure Module where
  path : String
  version : String
  sum : String
  main : Bool
  replace : Option Replace
deriving DecidableEq

/-- The output descriptor `Repo` as populated by `importRepoRulesModules`
(`Name`, `GoPrefix`, `Version`, `Sum`, `Replace`; the Go `Replace` string field
defaults to the empty string when no override is recorded). -/
structure Repo where
  name : String
  goPrefix : String
  version : String
  sum : String
  replace : String
deriving DecidableEq

/-- Error outcomes of the fallible steps of the run. -/
inductive Err where
  | openFailed
  | tempDirFailed
  | createFailed
  | copyFailed
  | closeFailed
  | readFailed
  | listFailed
  | decodeFailed
  | downloadFailed
deriving DecidableEq

/-- Observable state threaded through the run: the filesystem (files as an
association list of path to contents, plus existing directories), the log
sink (`log.Printf`), and the argument batches of the `go mod download`
invocations issued so far. -/
structure St where
  files : List (String × String)
  dirs : List String
  logs : List String
  dlCalls : List (List String)
deriving DecidableEq

/-- Environment of one resolution run: the fresh temporary-directory name
chosen by `ioutil.TempDir`, forced failures of the operating-system steps,
and the two subprocess oracles. -/
structure GoEnv where
  tempDirName : String
  openFail : Bool
  tempDirFail : Bool
  createFail : Bool
  copyFail : Bool
  closeFail : Bool
  readFileFail : Bool
  listResult : Except Err (List Module)
  listRewrite : Option String
  dlResult : List String → Except Err (List Module)
  dlRewrite : Option String

/-- Path of the copied manifest inside the temporary directory
(`filepath.Join(tempDir, "go.mod")`). -/
def tempGoMod (env : GoEnv) : String := env.tempDirName ++ "/go.mod"

/-- `p` lies strictly inside directory `dir`. -/
def underDir (p dir : String) : Bool := strStartsWith p (dir ++ "/")

/-- Look a file up in the association list. -/
def lookupFile : List (String × String) → String → Option String
  | [], _ => none
  | (q, c) :: rest, p => if q = p then some c else lookupFile rest p

/-- Write a file: replace the first entry at that path, or append a new one
(`os.Create` truncates, `io.Copy` then fills the contents). -/
def setFile : List (String × String) → String → String → List (String × String)
  | [], p, c => [(p, c)]
  | (q, c') :: rest, p, c => if q = p then (p, c) :: rest else (q, c') :: setFile rest p c

/-- `os.RemoveAll(dir)`: drop the directory, everything under it, and any
file at that very path. -/
def removeAll (dir : String) (st : St) : St :=
  { st with
    files := st.files.filter fun kv => ¬ (kv.1 = dir ∨ underDir kv.1 dir = true)
    dirs := st.dirs.filter fun d => ¬ (d = dir ∨ underDir d dir = true) }

/-- `os.Remove(dir)` on the just-created empty temporary directory. -/
def removeDir (dir : String) (st : St) : St :=
  { st with dirs := st.dirs.filter fun d => ¬ d = dir }

/-- `copyGoModToTemp`: open the original manifest, create a fresh temporary
directory, create `go.mod` inside it and copy the contents over.  The
deferred `Close` of the copy can itself fail; in that case the function
returns the close error while the temporary directory is left in place
(the source removes it only on the create- and copy-failure paths). -/
def copyGoModToTemp (env : GoEnv) (filename : String) (st : St) :
    Except Err String × St :=
  match lookupFile st.files filename with
  | none => (.error .openFailed, st)
  | some content =>
    if env.openFail then (.error .openFailed, st)
    else if env.tempDirFail then (.error .tempDirFailed, st)
    else
      let st1 : St := { st with dirs := st.dirs ++ [env.tempDirName] }
      if env.createFail then (.error .createFailed, removeDir env.tempDirName st1)
      else
        let st2 : St := { st1 with files := setFile st1.files (tempGoMod env) "" }
        if env.copyFail then (.error .copyFailed, removeAll env.tempDirName st2)
        else
          let st3 : St := { st2 with files := setFile st2.files (tempGoMod env) content }
          if env.closeFail then (.error .closeFailed, st3)
          else (.ok env.tempDirName, st3)

/-- `goListModules`: run `go list -m -json all` with `cmd.Dir = tempDir`.
The subprocess may rewrite the copied manifest; its decoded record stream
(or process/decode error) comes from the oracle. -/
def goListModules (env : GoEnv) (tempDir : String) (st : St) :
    Except Err (List Module) × St :=
  let st1 : St :=
    match env.listRewrite with
    | none => st
    | some c => { st with files := setFile st.files (tempDir ++ "/go.mod") c }
  (env.listResult, st1)

/-- `goModDownload`: run `go mod download -json` with the given argument
batch and `cmd.Dir = tempDir`, recording the invocation. -/
def goModDownload (env : GoEnv) (tempDir : String) (args : List String) (st : St) :
    Except Err (List Module) × St :=
  let st1 : St :=
    match env.dlRewrite with
    | none => st
    | some c => { st with files := setFile st.files (tempDir ++ "/go.mod") c }
  (env.dlResult args, { st1 with dlCalls := st1.dlCalls ++ [args] })

/-- `build.IsLocalImport(path)` from the Go standard library. -/
def isLocalImport (path : String) : Bool :=
  path = "." || path = ".." || strStartsWith path "./" || strStartsWith path "../"

/-- `filepath.IsAbs(path)` on a Unix host. -/
def isAbs (path : String) : Bool := strStartsWith path "/"

/-- The `log.Printf` message for an unsupported file-path replacement. -/
def replaceMsg (path rpath : String) : String :=
  "go_repository does not support file path replacements for " ++ path ++
    " -> " ++ rpath

/-- Insert into the association list: replace the first entry with this key,
or append (a Go map has one entry per key). -/
def insertAL : List (String × Module) → String → Module → List (String × Module)
  | [], k, v => [(k, v)]
  | (k', v') :: rest, k, v =>
    if k' = k then (k, v) :: rest else (k', v') :: insertAL rest k v

/-- Look a module up by path in the association list (`pathToModule[path]`). -/
def lookupAL : List (String × Module) → String → Option Module
  | [], _ => none
  | (k', v) :: rest, k => if k' = k then some v else lookupAL rest k

/-- One iteration of the decode loop of `importRepoRulesModules`: discard the
main module; log and skip a replacement whose target is an absolute or
relative filesystem path; otherwise index the record under the replacement
target path if it has one, else under its own path. -/
def indexStep (acc : List (String × Module) × List String) (m : Module) :
    List (String × Module) × List String :=
  if m.main then acc
  else
    match m.replace with
    | some r =>
      if isAbs r.path || isLocalImport r.path then
        (acc.1, acc.2 ++ [replaceMsg m.path r.path])
      else (insertAL acc.1 r.path m, acc.2)
    | none => (insertAL acc.1 m.path m, acc.2)

/-- The whole decode loop: fold `indexStep` over the decoded record stream,
producing the `pathToModule` table and the emitted log lines. -/
def indexModules (mods : List Module) : List (String × Module) × List String :=
  mods.foldl indexStep ([], [])

/-- `bytes.Fields` after `bytes.TrimSpace`: the whitespace-separated fields
of a line (all fields are non-empty by construction). -/
def strFields (line : String) : List String :=
  fieldsGo [] (trimChars line.data)

/-- Parse one `go.sum` line: exactly three fields, and skip entries whose
version carries the `/go.mod` suffix (they hash the manifest, not the
module content). -/
def parseGoSumLine (line : String) : Option (String × String × String) :=
  match strFields line with
  | [path, version, sum] =>
    if strEndsWith version "/go.mod" then none else some (path, version, sum)
  | _ => none

/-- The `go.sum` merge loop: split on newlines, and for each well-formed
non-manifest-hash entry look the module up by path (the version field is not
consulted) and set its checksum; later lines overwrite earlier ones. -/
def mergeGoSum (table : List (String × Module)) (data : String) :
    List (String × Module) :=
  (splitCh '\n' data).foldl
    (fun t line =>
      match parseGoSumLine line with
      | none => t
      | some (path, _version, sum) =>
        match lookupAL t path with
        | none => t
        | some m => insertAL t path { m with sum := sum })
    table

/-- The version-qualified identifier passed to `go mod download`:
`replace.Path@replace.Version` when an override exists, else
`Path@Version`. -/
def dlArg (m : Module) : String :=
  match m.replace with
  | some r => r.path ++ "@" ++ r.version
  | none => m.path ++ "@" ++ m.version

/-- Collect the download arguments of every module whose checksum is still
empty after the merge (`missingSumArgs`). -/
def missingSumArgs (table : List (String × Module)) : List String :=
  table.foldl (fun acc kv => if kv.2.sum = "" then acc ++ [dlArg kv.2] else acc) []

/-- The decode loop over the `go mod download -json` output: for each record,
if a module is indexed at its path, set that module's checksum. -/
def applyDownloads (table : List (String × Module)) (dls : List Module) :
    List (String × Module) :=
  dls.foldl
    (fun t dl =>
      match lookupAL t dl.path with
      | none => t
      | some m => insertAL t dl.path { m with sum := dl.sum })
    table

/-- Modelled from the spec: the naming collaborator
`label.ImportPathToBazelRepoName` lives in the `label` package of the
repository, which is not part of the sources under verification.  The spec
describes it as a pure, deterministic, collision-resistant and stable
transform of the path, so it is modelled as an injective transform (the
identity). -/
def importPathToBazelRepoName (importPath : String) : String := importPath

/-- The `log.Printf` message for a module whose checksum stayed empty. -/
def sumWarning (path : String) : String :=
  "could not determine sum for module " ++ path

/-- Translate one module record to repo metadata: derived name and the
canonical path come from the record's own `Path`; when a replacement is
recorded, the emitted version and the `Replace` field come from the
override. -/
def toRepo (m : Module) : Repo :=
  let base : Repo :=
    { name := importPathToBazelRepoName m.path
      goPrefix := m.path
      version := m.version
      sum := m.sum
      replace := "" }
  match m.replace with
  | none => base
  | some r => { base with replace := r.path, version := r.version }

/-- The comparator of the final sort, as a relation: `sort.Slice` with the
strict comparator `repos[i].Name < repos[j].Name` orders the slice by the
reflexive closure of that comparator. -/
def repoLe (a b : Repo) : Prop := strLe a.name b.name = true

/-- The strict name order on descriptors (the comparator itself). -/
def repoLt (a b : Repo) : Prop := strLt a.name b.name = true

instance : DecidableRel repoLe := fun _ _ => instDecidableEqBool _ _

instance : DecidableRel repoLt := fun _ _ => instDecidableEqBool _ _

/-- The translation loop plus the final sort: skip (and warn about) records
whose checksum is still empty, convert the rest, and sort by derived name
ascending.  The source's `sort.Slice` with a strict `<` comparator is
modelled by an insertion sort on the reflexive order of the names. -/
def buildRepos (table : List (String × Module)) : List Repo × List String :=
  let pair :=
    table.foldl
      (fun (acc : List Repo × List String) kv =>
        if kv.2.sum = "" then (acc.1, acc.2 ++ [sumWarning kv.2.path])
        else (acc.1 ++ [toRepo kv.2], acc.2))
      ([], [])
  (pair.1.insertionSort repoLe, pair.2)

/-- `filepath.Dir` for the ordinary relative and absolute paths the run
passes to it: everything before the final path separator, `"."` when there
is none. -/
def dirOf (p : String) : String :=
  match (splitCh '/' p).dropLast with
  | [] => "."
  | parts => String.intercalate "/" parts

/-- `filepath.Join(filepath.Dir(filename), "go.sum")`. -/
def goSumPath (filename : String) : String := dirOf filename ++ "/go.sum"

/-- `ioutil.ReadFile` of the checksum ledger: fails on a forced read error
(e.g. permissions) or when the file is absent. -/
def readGoSumFile (env : GoEnv) (st : St) (p : String) : Except Err String :=
  if env.readFileFail then .error .readFailed
  else
    match lookupFile st.files p with
    | none => .error .readFailed
    | some c => .ok c

/-- `importRepoRulesModules`: copy the manifest into a fresh temporary
directory, list the module graph there, index it, merge `go.sum` checksums
(the read error of the ledger is discarded, as in `data, _ =
ioutil.ReadFile(...)`), download the checksums that are still missing, and
translate the table to sorted repo metadata.  The deferred
`os.RemoveAll(tempDir)` is applied on every exit path that runs after the
copy step has returned successfully. -/
def importRepoRulesModules (env : GoEnv) (filename : String) (st : St) :
    Except Err (List Repo) × St :=
  match copyGoModToTemp env filename st with
  | (.error e, st') => (.error e, st')
  | (.ok tempDir, st1) =>
    match goListModules env tempDir st1 with
    | (.error e, st2) => (.error e, removeAll tempDir st2)
    | (.ok mods, st2) =>
      let ix := indexModules mods
      let st3 : St := { st2 with logs := st2.logs ++ ix.2 }
      let sumData : String :=
        match readGoSumFile env st3 (goSumPath filename) with
        | .error _ => ""
        | .ok d => d
      let table2 := mergeGoSum ix.1 sumData
      let args := missingSumArgs table2
      if args = [] then
        let out := buildRepos table2
        (.ok out.1, removeAll tempDir { st3 with logs := st3.logs ++ out.2 })
      else
        match goModDownload env tempDir args st3 with
        | (.error e, st4) => (.error e, removeAll tempDir st4)
        | (.ok dls, st4) =>
          let table3 := applyDownloads table2 dls
          let out := buildRepos table3
          (.ok out.1, removeAll tempDir { st4 with logs := st4.logs ++ out.2 })

/-!
### Derived definitions used by the statements
-/

/-- The descriptors kept by the translation loop, in table order. -/
def keptRepos : List (String × Module) → List Repo
  | [] => []
  | kv :: rest =>
    if kv.2.sum = "" then keptRepos rest else toRepo kv.2 :: keptRepos rest

/-- The warnings emitted by the translation loop, in table order. -/
def warnList : List (String × Module) → List String
  | [] => []
  | kv :: rest =>
    if kv.2.sum = "" then sumWarning kv.2.path :: warnList rest else warnList rest

/-- The indexing policy of the decode loop: a record with a (supported)
replacement is indexed under the replacement target path, a record without
one under its own path. -/
def keySpec (k : String) (m : Module) : Prop :=
  (∃ r, m.replace = some r ∧ isAbs r.path = false ∧ isLocalImport r.path = false ∧
    k = r.path) ∨
  (m.replace = none ∧ k = m.path)

/-- The well-formed, non-manifest-hash entries of a `go.sum` file, in file
order. -/
def goSumEntries (data : String) : List (String × String × String) :=
  (splitCh '\n' data).filterMap parseGoSumLine

/-- Spec-side comparison run for the ledger-read-failure claim, following
the spec's words: the same resolution run with the merge stage behaving
"as if the ledger were empty" (no checksum is attached from the ledger;
everything else is unchanged). -/
def importRepoRulesModulesLedgerEmpty (env : GoEnv) (filename : String) (st : St) :
    Except Err (List Repo) × St :=
  match copyGoModToTemp env filename st with
  | (.error e, st') => (.error e, st')
  | (.ok tempDir, st1) =>
    match goListModules env tempDir st1 with
    | (.error e, st2) => (.error e, removeAll tempDir st2)
    | (.ok mods, st2) =>
      let ix := indexModules mods
      let st3 : St := { st2 with logs := st2.logs ++ ix.2 }
      let table2 := ix.1
      let args := missingSumArgs table2
      if args = [] then
        let out := buildRepos table2
        (.ok out.1, removeAll tempDir { st3 with logs := st3.logs ++ out.2 })
      else
        match goModDownload env tempDir args st3 with
        | (.error e, st4) => (.error e, removeAll tempDir st4)
        | (.ok dls, st4) =>
          let table3 := applyDownloads table2 dls
          let out := buildRepos table3
          (.ok out.1, removeAll tempDir { st4 with logs := st4.logs ++ out.2 })

/-- Worker extracting the checksum of the last ledger entry whose path
equals the given key (the entry that wins under the merge loop's
last-write-wins behaviour). -/
def lastSumFor : List (String × String × String) → String → Option String
  | [], _ => none
  | e :: rest, k =>
    match lastSumFor rest k with
    | some s => some s
    | none => if e.1 = k then some e.2.2 else none

/-- One merge step on an already-parsed ledger entry. -/
def applyEntry (t : List (String × Module)) (e : String × String × String) :
    List (String × Module) :=
  match lookupAL t e.1 with
  | none => t
  | some m => insertAL t e.1 { m with sum := e.2.2 }

/-- The ledger contents the merge stage sees, expressed against the state
the run started from: empty on a read failure or an absent file, the file
contents otherwise. -/
def goSumData (env : GoEnv) (st : St) (fn : String) : String :=
  if env.readFileFail then "" else (lookupFile st.files (goSumPath fn)).getD ""

/-- The module table after graph indexing and ledger merge, expressed
against the state the run started from. -/
def mergedTable (env : GoEnv) (st : St) (fn : String) (mods : List Module) :
    List (String × Module) :=
  mergeGoSum (indexModules mods).1 (goSumData env st fn)

/-!
### Concrete inputs for witnesses and counterexamples
-/

/-- A plain module without replacement. -/
def modA : Module := { path := "aa", version := "v1", sum := "", main := false, replace := none }

/-- A plain module whose checksum is absent from the ledger. -/
def modB : Module := { path := "bb", version := "v2", sum := "", main := false, replace := none }

/-- The main-module record of the graph listing. -/
def modMain : Module :=
  { path := "root", version := "", sum := "", main := true, replace := none }

/-- A module with a supported (remote) replacement. -/
def modRep : Module :=
  { path := "cc", version := "v3", sum := "", main := false
    replace := some { path := "dd", version := "v4" } }

/-- A module with an unsupported local-path replacement. -/
def modLocal : Module :=
  { path := "ee", version := "v5", sum := "", main := false
    replace := some { path := "./loc", version := "v6" } }

/-- A module sharing `modA`'s declared path but carrying a replacement, so
both records survive indexing under different keys while deriving the same
output name. -/
def modShadow : Module :=
  { path := "aa", version := "v9", sum := "", main := false
    replace := some { path := "zz", version := "v9" } }

/-- A workspace state with a manifest and a ledger. -/
def baseSt : St :=
  { files := [("d/go.mod", "module root"), ("d/go.sum", "aa v1 haa\nbogus\naa v1/go.mod hxx")]
    dirs := ["d"], logs := [], dlCalls := [] }

/-- A fully healthy environment whose graph contains a main module, two
plain modules, a replaced module and a local-replacement module. -/
def baseEnv : GoEnv :=
  { tempDirName := "tmp"
    openFail := false, tempDirFail := false, createFail := false
    copyFail := false, closeFail := false, readFileFail := false
    listResult := .ok [modMain, modA, modB, modRep, modLocal]
    listRewrite := some "rewritten"
    dlResult := fun _ =>
      .ok [ { path := "bb", version := "v2", sum := "hbb", main := false, replace := none },
            { path := "dd", version := "", sum := "hdd", main := false, replace := none } ]
    dlRewrite := none }

/-- State for the duplicate-name counterexample: ledger supplies checksums
for both index keys. -/
def cexSt5 : St :=
  { files := [("d/go.mod", "module root"), ("d/go.sum", "aa v1 haa\nzz v9 hzz")]
    dirs := ["d"], logs := [], dlCalls := [] }

/-- Environment for the duplicate-name counterexample: two surviving
records share the declared path `aa`. -/
def cexEnv5 : GoEnv :=
  { baseEnv with listResult := .ok [modA, modShadow], dlResult := fun _ => .ok [] }

/-- Module for the ledger-merge counterexample. -/
def cexMod3 : Module :=
  { path := "pp", version := "v1", sum := "", main := false, replace := none }

/-- Table for the ledger-merge counterexample. -/
def cexTable3 : List (String × Module) := [("pp", cexMod3)]

/-- Ledger for the merge counterexample: two well-formed entries with the
module's path, the matching one first. -/
def cexSum3 : String := "pp v1 h1\npp v2 h2"

/-!
### Association-list and filesystem lemmas
-/

theorem lookupFile_setFile_ne (fs : List (String × String)) (p q c : String)
    (h : q ≠ p) : lookupFile (setFile fs p c) q = lookupFile fs q := by
  induction fs with
  | nil => simp [setFile, lookupFile, Ne.symm h]
  | cons kv rest ih =>
    rcases kv with ⟨k, c'⟩
    simp only [setFile]
    by_cases hk : k = p
    · subst hk
      simp [lookupFile, Ne.symm h]
    · rw [if_neg hk]
      simp only [lookupFile]
      by_cases hq : k = q
      · rw [if_pos hq, if_pos hq]
      · rw [if_neg hq, if_neg hq]; exact ih

theorem lookupFile_filter_key (fs : List (String × String)) (q : String)
    (p : String × String → Bool) (hp : ∀ c, p (q, c) = true) :
    lookupFile (fs.filter p) q = lookupFile fs q := by
  induction fs with
  | nil => rfl
  | cons kv rest ih =>
    rcases kv with ⟨k, c⟩
    by_cases hk : k = q
    · subst hk
      simp [List.filter, hp c, lookupFile, ih]
    · simp only [List.filter]
      cases hpk : p (k, c) with
      | true => simp [lookupFile, hk, ih]
      | false => simp [lookupFile, hk, ih]

theorem lookupFile_removeAll (st : St) (dir q : String)
    (h1 : q ≠ dir) (h2 : underDir q dir = false) :
    lookupFile (removeAll dir st).files q = lookupFile st.files q := by
  unfold removeAll
  exact lookupFile_filter_key _ _ _ (fun c => by simp [h1, h2])

theorem lookupAL_insertAL_self (t : List (String × Module)) (k : String) (v : Module) :
    lookupAL (insertAL t k v) k = some v := by
  induction t with
  | nil => simp [insertAL, lookupAL]
  | cons kv rest ih =>
    rcases kv with ⟨k', v'⟩
    by_cases hk : k' = k
    · simp [insertAL, lookupAL, hk]
    · simp [insertAL, lookupAL, hk, ih]

theorem lookupAL_insertAL_ne (t : List (String × Module)) (k k' : String) (v : Module)
    (h : k' ≠ k) : lookupAL (insertAL t k v) k' = lookupAL t k' := by
  induction t with
  | nil => simp [insertAL, lookupAL, Ne.symm h]
  | cons kv rest ih =>
    rcases kv with ⟨k0, v0⟩
    simp only [insertAL]
    by_cases hk : k0 = k
    · subst hk
      simp [lookupAL, Ne.symm h]
    · rw [if_neg hk]
      simp only [lookupAL]
      by_cases hq : k0 = k'
      · rw [if_pos hq, if_pos hq]
      · rw [if_neg hq, if_neg hq]; exact ih

theorem mem_of_lookupAL : ∀ (t : List (String × Module)) (k : String) (v : Module),
    lookupAL t k = some v → (k, v) ∈ t
  | [], _, _, h => by simp [lookupAL] at h
  | (k0, v0) :: rest, k, v, h => by
    simp only [lookupAL] at h
    by_cases hk : k0 = k
    · rw [if_pos hk] at h
      cases h
      exact hk ▸ List.mem_cons_self _ _
    · rw [if_neg hk] at h
      exact List.mem_cons_of_mem _ (mem_of_lookupAL rest k v h)

theorem mem_insertAL : ∀ (t : List (String × Module)) (k : String) (v : Module)
    (kv : String × Module), kv ∈ insertAL t k v → kv ∈ t ∨ kv = (k, v)
  | [], k, v, kv, h => by
    simp only [insertAL, List.mem_singleton] at h
    right; exact h
  | (k0, v0) :: rest, k, v, kv, h => by
    simp only [insertAL] at h
    by_cases hk : k0 = k
    · rw [if_pos hk] at h
      rcases List.mem_cons.mp h with h' | h'
      · right; exact h'
      · left; exact List.mem_cons_of_mem _ h'
    · rw [if_neg hk] at h
      rcases List.mem_cons.mp h with h' | h'
      · left; exact h' ▸ List.mem_cons_self _ _
      · rcases mem_insertAL rest k v kv h' with h2 | h2
        · left; exact List.mem_cons_of_mem _ h2
        · right; exact h2

theorem isSome_lookupAL_insertAL (t : List (String × Module)) (k k' : String) (v : Module)
    (h : (lookupAL t k').isSome = true) :
    (lookupAL (insertAL t k v) k').isSome = true := by
  by_cases hk : k' = k
  · subst hk; simp [lookupAL_insertAL_self]
  · rw [lookupAL_insertAL_ne _ _ _ _ hk]; exact h

theorem keysAL_insertAL_of_isSome (t : List (String × Module)) (k : String) (v : Module)
    (h : (lookupAL t k).isSome = true) :
    (insertAL t k v).map Prod.fst = t.map Prod.fst := by
  induction t with
  | nil => simp [lookupAL] at h
  | cons kv rest ih =>
    rcases kv with ⟨k0, v0⟩
    by_cases hk : k0 = k
    · subst hk; simp [insertAL]
    · simp only [lookupAL, if_neg hk] at h
      simp [insertAL, hk, ih h]

theorem lookupAL_of_mem_nodup : ∀ (t : List (String × Module)) (k : String) (v : Module),
    (t.map Prod.fst).Nodup → (k, v) ∈ t → lookupAL t k = some v
  | [], _, _, _, h => by simp at h
  | (k0, v0) :: rest, k, v, hnd, h => by
    simp only [List.map_cons, List.nodup_cons] at hnd
    rcases List.mem_cons.mp h with h' | h'
    · cases h'
      simp [lookupAL]
    · have hk : k0 ≠ k := by
        intro hk0; subst hk0
        exact hnd.1 (List.mem_map.mpr ⟨(k0, v), h', rfl⟩)
      simp [lookupAL, hk, lookupAL_of_mem_nodup rest k v hnd.2 h']

/-!
### The name order
-/

theorem lexLe_total : ∀ as bs : List Char, lexLe as bs = true ∨ lexLe bs as = true
  | [], _ => Or.inl rfl
  | _ :: _, [] => Or.inr rfl
  | a :: as, b :: bs => by
    rcases lt_trichotomy a b with h | h | h
    · left; simp [lexLe, h]
    · subst h
      rcases lexLe_total as bs with h' | h'
      · left; simp [lexLe, h']
      · right; simp [lexLe, h']
    · right; simp [lexLe, h]

theorem lexLe_trans : ∀ as bs cs : List Char,
    lexLe as bs = true → lexLe bs cs = true → lexLe as cs = true
  | [], _, _, _, _ => rfl
  | a :: as, [], _, h, _ => by simp [lexLe] at h
  | _ :: _, _ :: _, [], _, h => by simp [lexLe] at h
  | a :: as, b :: bs, c :: cs, h1, h2 => by
    simp only [lexLe] at h1 h2 ⊢
    rcases lt_trichotomy a b with hab | hab | hab
    · rcases lt_trichotomy b c with hbc | hbc | hbc
      · simp [lt_trans hab hbc]
      · subst hbc; simp [hab]
      · rw [if_neg (asymm hbc), if_pos hbc] at h2; exact absurd h2 (by simp)
    · subst hab
      rcases lt_trichotomy a c with hac | hac | hac
      · simp [hac]
      · subst hac
        rw [if_neg (lt_irrefl a), if_neg (lt_irrefl a)] at h1 h2 ⊢
        exact lexLe_trans as bs cs h1 h2
      · rw [if_neg (asymm hac), if_pos hac] at h2; exact absurd h2 (by simp)
    · rw [if_neg (asymm hab), if_pos hab] at h1; exact absurd h1 (by simp)

instance : IsTotal Repo repoLe :=
  ⟨fun a b => lexLe_total a.name.data b.name.data⟩

instance : IsTrans Repo repoLe :=
  ⟨fun a b c h1 h2 => lexLe_trans a.name.data b.name.data c.name.data h1 h2⟩

/-!
### Characterizing the descriptor builder
-/

theorem buildRepos_fold (t : List (String × Module)) :
    ∀ acc : List Repo × List String,
      t.foldl
        (fun (acc : List Repo × List String) kv =>
          if kv.2.sum = "" then (acc.1, acc.2 ++ [sumWarning kv.2.path])
          else (acc.1 ++ [toRepo kv.2], acc.2))
        acc = (acc.1 ++ keptRepos t, acc.2 ++ warnList t) := by
  induction t with
  | nil => intro acc; simp [keptRepos, warnList]
  | cons kv rest ih =>
    intro acc
    by_cases hs : kv.2.sum = ""
    · simp [List.foldl_cons, hs, ih, keptRepos, warnList]
    · simp [List.foldl_cons, hs, ih, keptRepos, warnList]

theorem buildRepos_eq (t : List (String × Module)) :
    buildRepos t = (List.insertionSort repoLe (keptRepos t), warnList t) := by
  unfold buildRepos
  rw [buildRepos_fold t ([], [])]
  simp

theorem toRepo_sum (m : Module) : (toRepo m).sum = m.sum := by
  unfold toRepo
  cases m.replace <;> rfl

theorem mem_keptRepos (t : List (String × Module)) (r : Repo)
    (h : r ∈ keptRepos t) : ∃ kv ∈ t, kv.2.sum ≠ "" ∧ r = toRepo kv.2 := by
  induction t with
  | nil => simp [keptRepos] at h
  | cons kv rest ih =>
    by_cases hs : kv.2.sum = ""
    · rw [keptRepos, if_pos hs] at h
      rcases ih h with ⟨kv', h1, h2, h3⟩
      exact ⟨kv', List.mem_cons_of_mem _ h1, h2, h3⟩
    · rw [keptRepos, if_neg hs] at h
      rcases List.mem_cons.mp h with h' | h'
      · exact ⟨kv, List.mem_cons_self _ _, hs, h'⟩
      · rcases ih h' with ⟨kv', h1, h2, h3⟩
        exact ⟨kv', List.mem_cons_of_mem _ h1, h2, h3⟩

theorem keptRepos_mem (t : List (String × Module)) (kv : String × Module)
    (h : kv ∈ t) (hs : kv.2.sum ≠ "") : toRepo kv.2 ∈ keptRepos t := by
  induction t with
  | nil => simp at h
  | cons kv0 rest ih =>
    rcases List.mem_cons.mp h with h' | h'
    · subst h'
      rw [keptRepos, if_neg hs]
      exact List.mem_cons_self _ _
    · by_cases hs0 : kv0.2.sum = ""
      · rw [keptRepos, if_pos hs0]; exact ih h'
      · rw [keptRepos, if_neg hs0]; exact List.mem_cons_of_mem _ (ih h')

theorem warnList_mem (t : List (String × Module)) (kv : String × Module)
    (h : kv ∈ t) (hs : kv.2.sum = "") : sumWarning kv.2.path ∈ warnList t := by
  induction t with
  | nil => simp at h
  | cons kv0 rest ih =>
    rcases List.mem_cons.mp h with h' | h'
    · subst h'
      rw [warnList, if_pos hs]
      exact List.mem_cons_self _ _
    · by_cases hs0 : kv0.2.sum = ""
      · rw [warnList, if_pos hs0]; exact List.mem_cons_of_mem _ (ih h')
      · rw [warnList, if_neg hs0]; exact ih h'

theorem mem_buildRepos_fst (t : List (String × Module)) (r : Repo) :
    r ∈ (buildRepos t).1 ↔ r ∈ keptRepos t := by
  rw [buildRepos_eq]
  exact List.mem_insertionSort repoLe

theorem buildRepos_sum_ne (t : List (String × Module)) (r : Repo)
    (h : r ∈ (buildRepos t).1) : r.sum ≠ "" := by
  rcases mem_keptRepos t r ((mem_buildRepos_fst t r).mp h) with ⟨kv, _, hs, hr⟩
  rw [hr, toRepo_sum]
  exact hs

theorem buildRepos_sorted (t : List (String × Module)) :
    List.Sorted repoLe (buildRepos t).1 := by
  rw [buildRepos_eq]
  exact List.sorted_insertionSort repoLe (keptRepos t)

/-!
### Component lemmas about the stateful steps
-/

theorem goListModules_fst (env : GoEnv) (td : String) (st : St) :
    (goListModules env td st).1 = env.listResult := by
  unfold goListModules; cases env.listRewrite <;> rfl

theorem goListModules_dirs (env : GoEnv) (td : String) (st : St) :
    (goListModules env td st).2.dirs = st.dirs := by
  unfold goListModules; cases env.listRewrite <;> rfl

theorem goListModules_logs (env : GoEnv) (td : String) (st : St) :
    (goListModules env td st).2.logs = st.logs := by
  unfold goListModules; cases env.listRewrite <;> rfl

theorem goListModules_dlCalls (env : GoEnv) (td : String) (st : St) :
    (goListModules env td st).2.dlCalls = st.dlCalls := by
  unfold goListModules; cases env.listRewrite <;> rfl

theorem goListModules_files_frame (env : GoEnv) (td : String) (st : St) (q : String)
    (h : q ≠ td ++ "/go.mod") :
    lookupFile (goListModules env td st).2.files q = lookupFile st.files q := by
  unfold goListModules
  cases env.listRewrite with
  | none => rfl
  | some c => exact lookupFile_setFile_ne _ _ _ _ h

theorem goModDownload_fst (env : GoEnv) (td : String) (args : List String) (st : St) :
    (goModDownload env td args st).1 = env.dlResult args := by
  unfold goModDownload; cases env.dlRewrite <;> rfl

theorem goModDownload_dirs (env : GoEnv) (td : String) (args : List String) (st : St) :
    (goModDownload env td args st).2.dirs = st.dirs := by
  unfold goModDownload; cases env.dlRewrite <;> rfl

theorem goModDownload_logs (env : GoEnv) (td : String) (args : List String) (st : St) :
    (goModDownload env td args st).2.logs = st.logs := by
  unfold goModDownload; cases env.dlRewrite <;> rfl

theorem goModDownload_dlCalls (env : GoEnv) (td : String) (args : List String) (st : St) :
    (goModDownload env td args st).2.dlCalls = st.dlCalls ++ [args] := by
  unfold goModDownload; cases env.dlRewrite <;> rfl

theorem goModDownload_files_frame (env : GoEnv) (td : String) (args : List String)
    (st : St) (q : String) (h : q ≠ td ++ "/go.mod") :
    lookupFile (goModDownload env td args st).2.files q = lookupFile st.files q := by
  unfold goModDownload
  cases env.dlRewrite with
  | none => rfl
  | some c => exact lookupFile_setFile_ne _ _ _ _ h

theorem removeAll_logs (dir : String) (st : St) : (removeAll dir st).logs = st.logs := rfl

theorem removeAll_dlCalls (dir : String) (st : St) :
    (removeAll dir st).dlCalls = st.dlCalls := rfl

theorem removeAll_not_mem_dirs (dir : String) (st : St) :
    dir ∉ (removeAll dir st).dirs := by
  simp [removeAll, List.mem_filter]

theorem copy_logs (env : GoEnv) (fn : String) (st : St) :
    (copyGoModToTemp env fn st).2.logs = st.logs := by
  unfold copyGoModToTemp
  cases lookupFile st.files fn with
  | none => rfl
  | some content =>
    by_cases h1 : env.openFail <;> by_cases h2 : env.tempDirFail <;>
      by_cases h3 : env.createFail <;> by_cases h4 : env.copyFail <;>
      by_cases h5 : env.closeFail <;>
      simp [h1, h2, h3, h4, h5, removeAll, removeDir]

theorem copy_dlCalls (env : GoEnv) (fn : String) (st : St) :
    (copyGoModToTemp env fn st).2.dlCalls = st.dlCalls := by
  unfold copyGoModToTemp
  cases lookupFile st.files fn with
  | none => rfl
  | some content =>
    by_cases h1 : env.openFail <;> by_cases h2 : env.tempDirFail <;>
      by_cases h3 : env.createFail <;> by_cases h4 : env.copyFail <;>
      by_cases h5 : env.closeFail <;>
      simp [h1, h2, h3, h4, h5, removeAll, removeDir]

theorem copy_files_frame (env : GoEnv) (fn : String) (st : St) (q : String)
    (h1 : q ≠ tempGoMod env) (h2 : q ≠ env.tempDirName)
    (h3 : underDir q env.tempDirName = false) :
    lookupFile (copyGoModToTemp env fn st).2.files q = lookupFile st.files q := by
  unfold copyGoModToTemp
  cases lookupFile st.files fn with
  | none => rfl
  | some content =>
    by_cases ha : env.openFail <;> by_cases hb : env.tempDirFail <;>
      by_cases hc : env.createFail <;> by_cases hd : env.copyFail <;>
      by_cases he : env.closeFail <;>
      simp [ha, hb, hc, hd, he, removeDir, lookupFile_removeAll _ _ _ h2 h3,
        lookupFile_setFile_ne _ _ _ _ h1]

theorem copy_ok_name (env : GoEnv) (fn : String) (st : St) (td : String) (st1 : St)
    (h : copyGoModToTemp env fn st = (.ok td, st1)) : td = env.tempDirName := by
  unfold copyGoModToTemp at h
  cases hl : lookupFile st.files fn with
  | none => rw [hl] at h; simp at h
  | some content =>
    rw [hl] at h
    by_cases ha : env.openFail <;> by_cases hb : env.tempDirFail <;>
      by_cases hc : env.createFail <;> by_cases hd : env.copyFail <;>
      by_cases he : env.closeFail <;>
      simp [ha, hb, hc, hd, he] at h <;> exact h.1.symm

theorem copy_ok_eq (env : GoEnv) (fn : String) (st : St) (content : String)
    (hl : lookupFile st.files fn = some content)
    (h1 : env.openFail = false) (h2 : env.tempDirFail = false)
    (h3 : env.createFail = false) (h4 : env.copyFail = false)
    (h5 : env.closeFail = false) :
    copyGoModToTemp env fn st =
      (.ok env.tempDirName,
        { st with
          dirs := st.dirs ++ [env.tempDirName]
          files := setFile (setFile st.files (tempGoMod env) "") (tempGoMod env) content }) := by
  unfold copyGoModToTemp
  rw [hl]
  simp [h1, h2, h3, h4, h5]

theorem copy_err_dirs (env : GoEnv) (fn : String) (st : St) (e : Err) (st1 : St)
    (hcl : env.closeFail = false) (hf : env.tempDirName ∉ st.dirs)
    (h : copyGoModToTemp env fn st = (.error e, st1)) :
    env.tempDirName ∉ st1.dirs := by
  unfold copyGoModToTemp at h
  cases hl : lookupFile st.files fn with
  | none =>
    rw [hl] at h
    cases h
    exact hf
  | some content =>
    rw [hl] at h
    by_cases ha : env.openFail <;> by_cases hb : env.tempDirFail <;>
      by_cases hc : env.createFail <;> by_cases hd : env.copyFail <;>
      simp [ha, hb, hc, hd, hcl] at h <;> rw [← h.2] <;>
      simp [removeAll, removeDir, List.mem_filter, hf]

/-!
### The shape of a successful run
-/

theorem run_ok_shape (env : GoEnv) (fn : String) (st : St) (repos : List Repo)
    (h : (importRepoRulesModules env fn st).1 = .ok repos) :
    ∃ t, repos = (buildRepos t).1 := by
  simp only [importRepoRulesModules] at h
  split at h
  · simp at h
  · split at h
    · simp at h
    · split at h
      · simp only [Except.ok.injEq] at h
        exact ⟨_, h.symm⟩
      · split at h
        · simp at h
        · simp only [Except.ok.injEq] at h
          exact ⟨_, h.symm⟩

/-!
### Characterizing the ledger merge
-/

theorem mergeGoSum_eq_entries (table : List (String × Module)) (data : String) :
    mergeGoSum table data = (goSumEntries data).foldl applyEntry table := by
  unfold mergeGoSum goSumEntries
  generalize splitCh '\n' data = lines
  induction lines generalizing table with
  | nil => rfl
  | cons line rest ih =>
    cases hp : parseGoSumLine line with
    | none => simp [List.foldl_cons, List.filterMap_cons, hp, ih]
    | some e =>
      obtain ⟨p, v, s⟩ := e
      simp [List.foldl_cons, List.filterMap_cons, hp, ih, applyEntry]

theorem foldl_applyEntry_lookup : ∀ (es : List (String × String × String))
    (table : List (String × Module)) (k : String) (m : Module),
    lookupAL table k = some m →
    (lastSumFor es k = none → lookupAL (es.foldl applyEntry table) k = some m) ∧
    (∀ s, lastSumFor es k = some s →
        lookupAL (es.foldl applyEntry table) k = some { m with sum := s })
  | [], table, k, m, hm =>
    ⟨fun _ => hm, fun s hs => by simp [lastSumFor] at hs⟩
  | e :: rest, table, k, m, hm => by
    by_cases hek : e.1 = k
    · have ht' : lookupAL (applyEntry table e) k = some { m with sum := e.2.2 } := by
        unfold applyEntry
        rw [hek, hm]
        exact lookupAL_insertAL_self table k { m with sum := e.2.2 }
      have ih := foldl_applyEntry_lookup rest (applyEntry table e) k
        { m with sum := e.2.2 } ht'
      constructor
      · intro hnone
        exfalso
        unfold lastSumFor at hnone
        split at hnone
        · cases hnone
        · rw [if_pos hek] at hnone
          cases hnone
      · intro s hs
        unfold lastSumFor at hs
        split at hs
        next s' hrest =>
          cases hs
          exact ih.2 _ hrest
        next hrest =>
          rw [if_pos hek] at hs
          cases hs
          exact ih.1 hrest
    · have ht' : lookupAL (applyEntry table e) k = some m := by
        unfold applyEntry
        cases hl : lookupAL table e.1 with
        | none => exact hm
        | some m0 =>
          rw [lookupAL_insertAL_ne _ _ _ _ (fun hc => hek hc.symm)]
          exact hm
      have ih := foldl_applyEntry_lookup rest (applyEntry table e) k m ht'
      constructor
      · intro hnone
        unfold lastSumFor at hnone
        split at hnone
        · cases hnone
        next hrest => exact ih.1 hrest
      · intro s hs
        unfold lastSumFor at hs
        split at hs
        next s' hrest =>
          cases hs
          exact ih.2 _ hrest
        next hrest =>
          rw [if_neg hek] at hs
          cases hs

theorem fieldsGo_ne_empty : ∀ (cs cur : List Char) (f : String),
    f ∈ fieldsGo cur cs → f ≠ ""
  | [], cur, f, h => by
    unfold fieldsGo at h
    split at h
    · simp at h
    next hcur =>
      rw [List.mem_singleton] at h
      subst h
      intro hf
      apply hcur
      have h2 : cur.reverse = ([] : List Char) := by
        have h3 := congrArg String.data hf
        simpa using h3
      simpa using h2
  | c :: cs, cur, f, h => by
    unfold fieldsGo at h
    split at h
    · split at h
      · exact fieldsGo_ne_empty cs [] f h
      next hcur =>
        rcases List.mem_cons.mp h with h' | h'
        · subst h'
          intro hf
          apply hcur
          have h2 : cur.reverse = ([] : List Char) := by
            have h3 := congrArg String.data hf
            simpa using h3
          simpa using h2
        · exact fieldsGo_ne_empty cs [] f h'
    · exact fieldsGo_ne_empty cs (c :: cur) f h

theorem strFields_ne_empty (line f : String) (h : f ∈ strFields line) : f ≠ "" :=
  fieldsGo_ne_empty (trimChars line.data) [] f h

theorem goSumEntries_sum_ne (data : String) (e : String × String × String)
    (h : e ∈ goSumEntries data) : e.2.2 ≠ "" := by
  unfold goSumEntries at h
  rcases List.mem_filterMap.mp h with ⟨line, _, hp⟩
  unfold parseGoSumLine at hp
  split at hp
  next p v s heq =>
    split at hp
    · cases hp
    · cases hp
      exact strFields_ne_empty line s (by rw [heq]; simp)
  next => cases hp

theorem lastSumFor_mem : ∀ (es : List (String × String × String)) (k s : String),
    lastSumFor es k = some s → ∃ e ∈ es, e.1 = k ∧ e.2.2 = s
  | [], _, _, h => by simp [lastSumFor] at h
  | e :: rest, k, s, h => by
    unfold lastSumFor at h
    split at h
    next s' hrest =>
      cases h
      rcases lastSumFor_mem rest k _ hrest with ⟨e', he', h1, h2⟩
      exact ⟨e', List.mem_cons_of_mem _ he', h1, h2⟩
    next hrest =>
      split at h
      next hek =>
        cases h
        exact ⟨e, List.mem_cons_self _ _, hek, rfl⟩
      · cases h

theorem keysAL_applyEntry (t : List (String × Module)) (e : String × String × String) :
    (applyEntry t e).map Prod.fst = t.map Prod.fst := by
  unfold applyEntry
  split
  · rfl
  next m hl => exact keysAL_insertAL_of_isSome t e.1 _ (by simp [hl])

theorem keysAL_foldl_applyEntry : ∀ (es : List (String × String × String))
    (t : List (String × Module)),
    ((es.foldl applyEntry t).map Prod.fst) = t.map Prod.fst
  | [], _ => rfl
  | e :: rest, t => by
    rw [List.foldl_cons, keysAL_foldl_applyEntry rest, keysAL_applyEntry]

theorem missingSumArgs_fold : ∀ (t : List (String × Module)) (acc : List String),
    t.foldl (fun acc kv => if kv.2.sum = "" then acc ++ [dlArg kv.2] else acc) acc =
      acc ++ (t.filter fun kv => kv.2.sum = "").map fun kv => dlArg kv.2
  | [], acc => by simp
  | kv :: rest, acc => by
    by_cases hs : kv.2.sum = ""
    · simp [List.foldl_cons, List.filter_cons, hs, missingSumArgs_fold rest]
    · simp [List.foldl_cons, List.filter_cons, hs, missingSumArgs_fold rest]

theorem missingSumArgs_spec (t : List (String × Module)) :
    missingSumArgs t = (t.filter fun kv => kv.2.sum = "").map fun kv => dlArg kv.2 := by
  unfold missingSumArgs
  rw [missingSumArgs_fold]
  simp

/-!
### The decode-loop index
-/

theorem indexStep_lookup (acc : List (String × Module) × List String) (m0 : Module)
    (k : String) (m : Module) (h : lookupAL (indexStep acc m0).1 k = some m) :
    lookupAL acc.1 k = some m ∨ (m = m0 ∧ m0.main = false ∧ keySpec k m0) := by
  unfold indexStep at h
  split at h
  · exact Or.inl h
  next hmain =>
    split at h
    next r hrep =>
      split at h
      · exact Or.inl h
      next hbad =>
        dsimp only [] at h
        simp only [Bool.or_eq_true, not_or, Bool.not_eq_true] at hbad
        by_cases hk : k = r.path
        · subst hk
          rw [lookupAL_insertAL_self] at h
          cases h
          exact Or.inr ⟨rfl, Bool.eq_false_iff.mpr hmain,
            Or.inl ⟨r, hrep, hbad.1, hbad.2, rfl⟩⟩
        · rw [lookupAL_insertAL_ne _ _ _ _ hk] at h
          exact Or.inl h
    next hrep =>
      dsimp only [] at h
      by_cases hk : k = m0.path
      · subst hk
        rw [lookupAL_insertAL_self] at h
        cases h
        exact Or.inr ⟨rfl, Bool.eq_false_iff.mpr hmain, Or.inr ⟨hrep, rfl⟩⟩
      · rw [lookupAL_insertAL_ne _ _ _ _ hk] at h
        exact Or.inl h

theorem foldl_indexStep_lookup : ∀ (mods : List Module)
    (acc : List (String × Module) × List String) (k : String) (m : Module),
    lookupAL (mods.foldl indexStep acc).1 k = some m →
    lookupAL acc.1 k = some m ∨ (m ∈ mods ∧ m.main = false ∧ keySpec k m)
  | [], _, _, _, h => Or.inl h
  | m0 :: rest, acc, k, m, h => by
    rcases foldl_indexStep_lookup rest (indexStep acc m0) k m h with h' | h'
    · rcases indexStep_lookup acc m0 k m h' with h2 | h2
      · exact Or.inl h2
      · exact Or.inr ⟨h2.1 ▸ List.mem_cons_self _ _, h2.1 ▸ h2.2.1, h2.1 ▸ h2.2.2⟩
    · exact Or.inr ⟨List.mem_cons_of_mem _ h'.1, h'.2⟩

theorem indexStep_logs_mono (acc : List (String × Module) × List String) (m0 : Module)
    (x : String) (h : x ∈ acc.2) : x ∈ (indexStep acc m0).2 := by
  unfold indexStep
  split
  · exact h
  · split
    · split
      · exact List.mem_append_left _ h
      · exact h
    · exact h

theorem foldl_indexStep_logs_mono : ∀ (mods : List Module)
    (acc : List (String × Module) × List String) (x : String),
    x ∈ acc.2 → x ∈ (mods.foldl indexStep acc).2
  | [], _, _, h => h
  | m0 :: rest, acc, x, h =>
    foldl_indexStep_logs_mono rest _ x (indexStep_logs_mono acc m0 x h)

theorem indexStep_logs_bad (acc : List (String × Module) × List String) (m0 : Module)
    (r : Replace) (hmain : m0.main = false) (hrep : m0.replace = some r)
    (hbad : (isAbs r.path || isLocalImport r.path) = true) :
    replaceMsg m0.path r.path ∈ (indexStep acc m0).2 := by
  unfold indexStep
  split
  next hm => rw [hmain] at hm; cases hm
  · split
    next r' hrep' =>
      rw [hrep'] at hrep
      cases hrep
      split
      · simp
      next hbad' => exact absurd hbad hbad'
    next hrep' => rw [hrep'] at hrep; cases hrep

theorem foldl_indexStep_logs_bad : ∀ (mods : List Module)
    (acc : List (String × Module) × List String) (m0 : Module) (r : Replace),
    m0 ∈ mods → m0.main = false → m0.replace = some r →
    (isAbs r.path || isLocalImport r.path) = true →
    replaceMsg m0.path r.path ∈ (mods.foldl indexStep acc).2
  | [], _, _, _, h, _, _, _ => absurd h (List.not_mem_nil _)
  | m1 :: rest, acc, m0, r, h, hmain, hrep, hbad => by
    rcases List.mem_cons.mp h with h' | h'
    · subst h'
      exact foldl_indexStep_logs_mono rest _ _ (indexStep_logs_bad acc m0 r hmain hrep hbad)
    · exact foldl_indexStep_logs_bad rest _ m0 r h' hmain hrep hbad

theorem indexStep_isSome_mono (acc : List (String × Module) × List String) (m0 : Module)
    (k : String) (h : (lookupAL acc.1 k).isSome = true) :
    (lookupAL (indexStep acc m0).1 k).isSome = true := by
  unfold indexStep
  split
  · exact h
  · split
    · split
      · exact h
      · exact isSome_lookupAL_insertAL _ _ _ _ h
    · exact isSome_lookupAL_insertAL _ _ _ _ h

theorem foldl_indexStep_isSome_mono : ∀ (mods : List Module)
    (acc : List (String × Module) × List String) (k : String),
    (lookupAL acc.1 k).isSome = true →
    (lookupAL (mods.foldl indexStep acc).1 k).isSome = true
  | [], _, _, h => h
  | m0 :: rest, acc, k, h =>
    foldl_indexStep_isSome_mono rest _ k (indexStep_isSome_mono acc m0 k h)

theorem indexStep_indexed_none (acc : List (String × Module) × List String) (m0 : Module)
    (hmain : m0.main = false) (hrep : m0.replace = none) :
    (lookupAL (indexStep acc m0).1 m0.path).isSome = true := by
  unfold indexStep
  split
  next hm => rw [hmain] at hm; cases hm
  · split
    next r' hrep' => rw [hrep'] at hrep; cases hrep
    next hrep' => simp [lookupAL_insertAL_self]

theorem indexStep_indexed_some (acc : List (String × Module) × List String) (m0 : Module)
    (r : Replace) (hmain : m0.main = false) (hrep : m0.replace = some r)
    (habs : isAbs r.path = false) (hloc : isLocalImport r.path = false) :
    (lookupAL (indexStep acc m0).1 r.path).isSome = true := by
  unfold indexStep
  split
  next hm => rw [hmain] at hm; cases hm
  · split
    next r' hrep' =>
      rw [hrep'] at hrep
      cases hrep
      split
      next hbad => rw [habs, hloc] at hbad; cases hbad
      · simp [lookupAL_insertAL_self]
    next hrep' => rw [hrep'] at hrep; cases hrep

theorem foldl_indexStep_indexed : ∀ (mods : List Module)
    (acc : List (String × Module) × List String) (m0 : Module),
    m0 ∈ mods → m0.main = false →
    ((m0.replace = none →
        (lookupAL (mods.foldl indexStep acc).1 m0.path).isSome = true) ∧
     (∀ r, m0.replace = some r → isAbs r.path = false → isLocalImport r.path = false →
        (lookupAL (mods.foldl indexStep acc).1 r.path).isSome = true))
  | [], _, _, h, _ => absurd h (List.not_mem_nil _)
  | m1 :: rest, acc, m0, h, hmain => by
    rcases List.mem_cons.mp h with h' | h'
    · subst h'
      constructor
      · intro hrep
        exact foldl_indexStep_isSome_mono rest _ _ (indexStep_indexed_none acc m0 hmain hrep)
      · intro r hrep habs hloc
        exact foldl_indexStep_isSome_mono rest _ _
          (indexStep_indexed_some acc m0 r hmain hrep habs hloc)
    · exact foldl_indexStep_indexed rest _ m0 h' hmain

/-!
### The claims
-/

/-- C8: during graph fetch, every indexed record comes from the decoded
stream, is not the main module and sits under the key the policy
prescribes; every record with a local/absolute replacement target is
logged and never indexed; every other surviving record is indexed under
its policy key. -/
theorem graph_fetch_indexing (mods : List Module) :
    (∀ k m, lookupAL (indexModules mods).1 k = some m →
        m ∈ mods ∧ m.main = false ∧ keySpec k m) ∧
    (∀ m ∈ mods, ∀ r : Replace, m.main = false → m.replace = some r →
        (isAbs r.path || isLocalImport r.path) = true →
        replaceMsg m.path r.path ∈ (indexModules mods).2 ∧
        ∀ k, ¬ lookupAL (indexModules mods).1 k = some m) ∧
    (∀ m ∈ mods, m.main = false →
        (m.replace = none → (lookupAL (indexModules mods).1 m.path).isSome = true) ∧
        (∀ r : Replace, m.replace = some r → isAbs r.path = false →
            isLocalImport r.path = false →
            (lookupAL (indexModules mods).1 r.path).isSome = true)) := by
  refine ⟨?_, ?_, ?_⟩
  · intro k m h
    rcases foldl_indexStep_lookup mods ([], []) k m h with h' | h'
    · simp [lookupAL] at h'
    · exact h'
  · intro m hm r hmain hrep hbad
    refine ⟨foldl_indexStep_logs_bad mods ([], []) m r hm hmain hrep hbad, ?_⟩
    intro k hk
    rcases foldl_indexStep_lookup mods ([], []) k m hk with h' | h'
    · simp [lookupAL] at h'
    · rcases h'.2.2 with ⟨r', hr', habs, hloc, _⟩ | ⟨hnone, _⟩
      · rw [hrep] at hr'
        cases hr'
        rw [habs, hloc] at hbad
        cases hbad
      · rw [hrep] at hnone
        cases hnone
  · intro m hm hmain
    exact foldl_indexStep_indexed mods ([], []) m hm hmain

/-- C8, witness: the replaced module of the base scenario is indexed under
its replacement target. -/
theorem graph_fetch_indexing_witness :
    modRep ∈ [modMain, modA, modB, modRep, modLocal] ∧ modRep.main = false ∧
      keySpec "dd" modRep :=
  (graph_fetch_indexing [modMain, modA, modB, modRep, modLocal]).1 "dd" modRep (by decide)

/-- C1: the original manifest's contents are unchanged after a resolution
run, on success and on every failure path: all writes go to the fresh
temporary directory (`ioutil.TempDir` guarantees the three freshness
hypotheses). -/
theorem original_manifest_preserved (env : GoEnv) (fn : String) (st : St)
    (h1 : fn ≠ tempGoMod env) (h2 : fn ≠ env.tempDirName)
    (h3 : underDir fn env.tempDirName = false) :
    lookupFile (importRepoRulesModules env fn st).2.files fn = lookupFile st.files fn := by
  unfold importRepoRulesModules
  have hcf := copy_files_frame env fn st fn h1 h2 h3
  split
  next e st1 heq =>
    rw [heq] at hcf
    exact hcf
  next tempDir st1 heq =>
    rw [heq] at hcf
    have htd := copy_ok_name env fn st tempDir st1 heq
    subst htd
    have hgf := goListModules_files_frame env env.tempDirName st1 fn h1
    split
    next e st2 heq2 =>
      rw [heq2] at hgf
      rw [lookupFile_removeAll _ _ _ h2 h3, hgf, hcf]
    next mods st2 heq2 =>
      rw [heq2] at hgf
      dsimp only []
      split
      · rw [lookupFile_removeAll _ _ _ h2 h3]
        dsimp only []
        rw [hgf, hcf]
      · split
        next e st4 heq3 =>
          rw [lookupFile_removeAll _ _ _ h2 h3]
          have h5 := congrArg (fun p => lookupFile p.2.files fn) heq3
          dsimp only [] at h5
          rw [← h5, goModDownload_files_frame env env.tempDirName _ _ fn h1]
          dsimp only []
          rw [hgf, hcf]
        next dls st4 heq3 =>
          rw [lookupFile_removeAll _ _ _ h2 h3]
          dsimp only []
          have h5 := congrArg (fun p => lookupFile p.2.files fn) heq3
          dsimp only [] at h5
          rw [← h5, goModDownload_files_frame env env.tempDirName _ _ fn h1]
          dsimp only []
          rw [hgf, hcf]

/-- C1, witness: a concrete healthy run leaves the manifest untouched. -/
theorem original_manifest_preserved_witness :
    lookupFile (importRepoRulesModules baseEnv "d/go.mod" baseSt).2.files "d/go.mod" =
      lookupFile baseSt.files "d/go.mod" :=
  original_manifest_preserved baseEnv "d/go.mod" baseSt (by decide) (by decide) (by decide)

/-- C4: after the merge, the recovery batch consists of exactly one
version-qualified identifier per module record whose checksum is still
empty (override target and version when an override exists, else the
record's own path and version), and `go mod download` is invoked exactly
once with the whole batch when the batch is non-empty and not at all when
it is empty. -/
theorem recovery_batched_once (env : GoEnv) (fn : String) (st : St) (content : String)
    (mods : List Module)
    (hl : lookupFile st.files fn = some content)
    (h1 : env.openFail = false) (h2 : env.tempDirFail = false)
    (h3 : env.createFail = false) (h4 : env.copyFail = false) (h5 : env.closeFail = false)
    (hlist : env.listResult = .ok mods)
    (hq : goSumPath fn ≠ tempGoMod env) :
    missingSumArgs (mergedTable env st fn mods) =
      ((mergedTable env st fn mods).filter fun kv => kv.2.sum = "").map
        (fun kv => dlArg kv.2) ∧
    (missingSumArgs (mergedTable env st fn mods) = [] →
        (importRepoRulesModules env fn st).2.dlCalls = st.dlCalls) ∧
    (missingSumArgs (mergedTable env st fn mods) ≠ [] →
        (importRepoRulesModules env fn st).2.dlCalls =
          st.dlCalls ++ [missingSumArgs (mergedTable env st fn mods)]) := by
  have key : (importRepoRulesModules env fn st).2.dlCalls =
      if missingSumArgs (mergedTable env st fn mods) = [] then st.dlCalls
      else st.dlCalls ++ [missingSumArgs (mergedTable env st fn mods)] := by
    unfold importRepoRulesModules
    rw [copy_ok_eq env fn st content hl h1 h2 h3 h4 h5]
    dsimp only []
    unfold goListModules
    rw [hlist]
    cases hrw : env.listRewrite with
    | none =>
      dsimp only []
      unfold mergedTable goSumData readGoSumFile
      cases hrf : env.readFileFail with
      | true =>
        simp only [hrf, if_true]
        try dsimp only []
        by_cases hargs :
            missingSumArgs (mergeGoSum (indexModules mods).1 "") = []
        · rw [if_pos hargs, if_pos hargs]
          rfl
        · rw [if_neg hargs, if_neg hargs]
          unfold goModDownload
          cases hdrw : env.dlRewrite <;> dsimp only [] <;> split <;>
            rename_i heq <;>
            exact (congrArg (fun p => p.2.dlCalls) heq).symm
      | false =>
        simp only [hrf, Bool.false_eq_true, if_false]
        try dsimp only []
        rw [lookupFile_setFile_ne _ _ _ _ hq, lookupFile_setFile_ne _ _ _ _ hq]
        cases hlv : lookupFile st.files (goSumPath fn) with
        | none =>
          dsimp only [Option.getD]
          by_cases hargs :
              missingSumArgs (mergeGoSum (indexModules mods).1 "") = []
          · rw [if_pos hargs, if_pos hargs]
            rfl
          · rw [if_neg hargs, if_neg hargs]
            unfold goModDownload
            cases hdrw : env.dlRewrite <;> dsimp only [] <;> split <;>
              rename_i heq <;>
              exact (congrArg (fun p => p.2.dlCalls) heq).symm
        | some d =>
          dsimp only [Option.getD]
          by_cases hargs :
              missingSumArgs (mergeGoSum (indexModules mods).1 d) = []
          · rw [if_pos hargs, if_pos hargs]
            rfl
          · rw [if_neg hargs, if_neg hargs]
            unfold goModDownload
            cases hdrw : env.dlRewrite <;> dsimp only [] <;> split <;>
              rename_i heq <;>
              exact (congrArg (fun p => p.2.dlCalls) heq).symm
    | some c =>
      dsimp only []
      unfold mergedTable goSumData readGoSumFile
      cases hrf : env.readFileFail with
      | true =>
        simp only [hrf, if_true]
        try dsimp only []
        by_cases hargs :
            missingSumArgs (mergeGoSum (indexModules mods).1 "") = []
        · rw [if_pos hargs, if_pos hargs]
          rfl
        · rw [if_neg hargs, if_neg hargs]
          unfold goModDownload
          cases hdrw : env.dlRewrite <;> dsimp only [] <;> split <;>
            rename_i heq <;>
            exact (congrArg (fun p => p.2.dlCalls) heq).symm
      | false =>
        simp only [hrf, Bool.false_eq_true, if_false]
        try dsimp only []
        have hq2 : goSumPath fn ≠ env.tempDirName ++ "/go.mod" := hq
        rw [lookupFile_setFile_ne _ _ _ _ hq2, lookupFile_setFile_ne _ _ _ _ hq,
          lookupFile_setFile_ne _ _ _ _ hq]
        cases hlv : lookupFile st.files (goSumPath fn) with
        | none =>
          dsimp only [Option.getD]
          by_cases hargs :
              missingSumArgs (mergeGoSum (indexModules mods).1 "") = []
          · rw [if_pos hargs, if_pos hargs]
            rfl
          · rw [if_neg hargs, if_neg hargs]
            unfold goModDownload
            cases hdrw : env.dlRewrite <;> dsimp only [] <;> split <;>
              rename_i heq <;>
              exact (congrArg (fun p => p.2.dlCalls) heq).symm
        | some d =>
          dsimp only [Option.getD]
          by_cases hargs :
              missingSumArgs (mergeGoSum (indexModules mods).1 d) = []
          · rw [if_pos hargs, if_pos hargs]
            rfl
          · rw [if_neg hargs, if_neg hargs]
            unfold goModDownload
            cases hdrw : env.dlRewrite <;> dsimp only [] <;> split <;>
              rename_i heq <;>
              exact (congrArg (fun p => p.2.dlCalls) heq).symm
  refine ⟨missingSumArgs_spec _, ?_, ?_⟩
  · intro hargs
    rw [key, if_pos hargs]
  · intro hargs
    rw [key, if_neg hargs]

/-- C4, witness: the base scenario recovers the two missing checksums with
one batched call. -/
theorem recovery_batched_once_witness :
    (importRepoRulesModules baseEnv "d/go.mod" baseSt).2.dlCalls =
      baseSt.dlCalls ++ [missingSumArgs (mergedTable baseEnv baseSt "d/go.mod"
        [modMain, modA, modB, modRep, modLocal])] :=
  (recovery_batched_once baseEnv "d/go.mod" baseSt "module root"
    [modMain, modA, modB, modRep, modLocal]
    rfl rfl rfl rfl rfl rfl rfl (by decide)).2.2 (by decide)

/-- C3, counterexample: the merge matches ledger entries to module records
by path alone, last write wins.  The module `(pp, v1)` has a well-formed
non-manifest-hash ledger entry `pp v1 h1` matching it by path and version,
yet its merged checksum is `h2` (from the later `pp v2 h2` line), not the
matching entry's `h1`. -/
theorem ledger_merge_counterexample :
    lookupAL cexTable3 "pp" = some cexMod3 ∧
    cexMod3.path = "pp" ∧ cexMod3.version = "v1" ∧
    goSumEntries cexSum3 = [("pp", "v1", "h1"), ("pp", "v2", "h2")] ∧
    lookupAL (mergeGoSum cexTable3 cexSum3) "pp" = some { cexMod3 with sum := "h2" } ∧
    ("h2" : String) ≠ "h1" := by
  decide

/-- C3, amended: the merge matches ledger entries to module records by
index path only (the version field is not consulted), later entries
overwrite earlier ones; a module with at least one matching entry receives
the checksum of the last matching entry, which is non-empty, so the record
at that key contributes nothing to the recovery batch. -/
theorem ledger_merge_by_path_lastwins (table : List (String × Module)) (data k : String)
    (m : Module) (hnd : (table.map Prod.fst).Nodup) (hm : lookupAL table k = some m) :
    (lastSumFor (goSumEntries data) k = none →
        lookupAL (mergeGoSum table data) k = some m) ∧
    (∀ s, lastSumFor (goSumEntries data) k = some s →
        lookupAL (mergeGoSum table data) k = some { m with sum := s } ∧ s ≠ "" ∧
        ∀ kv ∈ mergeGoSum table data, kv.1 = k → kv.2.sum ≠ "") := by
  have hspec := foldl_applyEntry_lookup (goSumEntries data) table k m hm
  rw [mergeGoSum_eq_entries]
  refine ⟨hspec.1, ?_⟩
  intro s hs
  have hsne : s ≠ "" := by
    rcases lastSumFor_mem _ _ _ hs with ⟨e, he, _, h2⟩
    exact h2 ▸ goSumEntries_sum_ne data e he
  refine ⟨hspec.2 s hs, hsne, ?_⟩
  intro kv hkv hk
  have hndm : (((goSumEntries data).foldl applyEntry table).map Prod.fst).Nodup := by
    rw [keysAL_foldl_applyEntry]
    exact hnd
  have hlk := lookupAL_of_mem_nodup _ kv.1 kv.2 hndm (by simpa using hkv)
  rw [hk] at hlk
  have h2 := hlk.symm.trans (hspec.2 s hs)
  have h3 : kv.2 = { m with sum := s } := Option.some.inj h2
  rw [h3]
  simpa using hsne

/-- C3, witness for the amended theorem at the counterexample inputs. -/
theorem ledger_merge_by_path_lastwins_witness :
    lookupAL (mergeGoSum cexTable3 cexSum3) "pp" = some { cexMod3 with sum := "h2" } ∧
    ("h2" : String) ≠ "" ∧
    ∀ kv ∈ mergeGoSum cexTable3 cexSum3, kv.1 = "pp" → kv.2.sum ≠ "" :=
  (ledger_merge_by_path_lastwins cexTable3 cexSum3 "pp" cexMod3 (by decide)
    (by decide)).2 "h2" (by decide)

/-- The merge over an empty ledger leaves the table unchanged. -/
theorem mergeGoSum_empty (table : List (String × Module)) : mergeGoSum table "" = table := rfl

/-- C10: when reading the checksum ledger fails (the error of
`ioutil.ReadFile` is discarded), the whole run — result, final filesystem,
logs and subprocess calls — coincides with the run that treats the ledger
as empty: no checksum is merged, no warning about the read failure is
recorded, and no error is returned from this stage. -/
theorem ledger_read_failure_ignored (env : GoEnv) (fn : String) (st : St)
    (h : env.readFileFail = true) :
    importRepoRulesModules env fn st = importRepoRulesModulesLedgerEmpty env fn st := by
  unfold importRepoRulesModules importRepoRulesModulesLedgerEmpty
  rcases copyGoModToTemp env fn st with ⟨_ | tempDir, st1⟩
  · rfl
  · dsimp only []
    rcases goListModules env tempDir st1 with ⟨_ | mods, st2⟩
    · rfl
    · dsimp only []
      have hsum : ∀ st' : St, readGoSumFile env st' (goSumPath fn) = .error .readFailed := by
        intro st'
        unfold readGoSumFile
        rw [h]
        rfl
      simp only [hsum, mergeGoSum_empty]

/-- C10, witness: a concrete run with a failing ledger read equals its
empty-ledger counterpart. -/
theorem ledger_read_failure_ignored_witness :
    importRepoRulesModules { baseEnv with readFileFail := true } "d/go.mod" baseSt =
      importRepoRulesModulesLedgerEmpty { baseEnv with readFileFail := true }
        "d/go.mod" baseSt :=
  ledger_read_failure_ignored { baseEnv with readFileFail := true } "d/go.mod" baseSt rfl

/-- C2, counterexample: when the deferred close of the temporary manifest
copy fails after a successful copy, the run returns the close error but the
temporary directory it created (absent beforehand) still exists when the
run returns, so cleanup does not happen on every exit path. -/
theorem tempDirLeak_on_closeFail_counterexample :
    "tmp" ∉ baseSt.dirs ∧
    (importRepoRulesModules { baseEnv with closeFail := true } "d/go.mod" baseSt).1 =
      .error .closeFailed ∧
    "tmp" ∈ (importRepoRulesModules { baseEnv with closeFail := true } "d/go.mod" baseSt).2.dirs := by
  decide

/-- C2, amended: on every exit path except a failure of the deferred close
of the temporary copy, the temporary directory no longer exists when the
run returns. -/
theorem tempDirRemoved_unless_closeFail (env : GoEnv) (fn : String) (st : St)
    (hclose : env.closeFail = false) (hfresh : env.tempDirName ∉ st.dirs) :
    env.tempDirName ∉ (importRepoRulesModules env fn st).2.dirs := by
  simp only [importRepoRulesModules]
  split
  next e st1 heq => exact copy_err_dirs env fn st e st1 hclose hfresh heq
  next tempDir st1 heq =>
    have htd := copy_ok_name env fn st tempDir st1 heq
    subst htd
    split
    · exact removeAll_not_mem_dirs _ _
    · split
      · exact removeAll_not_mem_dirs _ _
      · split
        · exact removeAll_not_mem_dirs _ _
        · exact removeAll_not_mem_dirs _ _

/-- C2, witness for the amended theorem at a concrete healthy run. -/
theorem tempDirRemoved_unless_closeFail_witness :
    "tmp" ∉ (importRepoRulesModules baseEnv "d/go.mod" baseSt).2.dirs :=
  tempDirRemoved_unless_closeFail baseEnv "d/go.mod" baseSt rfl (by decide)

/-- C5, counterexample: a graph whose records share a declared import path
(one plain, one replaced) produces two descriptors with equal derived
names, so the output is not sorted strictly ascending and the collision is
not detected. -/
theorem output_not_strictly_sorted_counterexample :
    (importRepoRulesModules cexEnv5 "d/go.mod" cexSt5).1 =
      .ok [ { name := "aa", goPrefix := "aa", version := "v1", sum := "haa", replace := "" },
            { name := "aa", goPrefix := "aa", version := "v9", sum := "hzz", replace := "zz" } ] ∧
    ¬ List.Pairwise repoLt
        [ { name := "aa", goPrefix := "aa", version := "v1", sum := "haa", replace := "" },
          { name := "aa", goPrefix := "aa", version := "v9", sum := "hzz", replace := "zz" } ] := by
  decide

/-- C5, amended: the returned descriptor list of every successful run is
sorted ascending (non-strictly) by derived name; equal derived names may
occur and are not detected. -/
theorem output_sorted_by_name (env : GoEnv) (fn : String) (st : St) (repos : List Repo)
    (h : (importRepoRulesModules env fn st).1 = .ok repos) :
    List.Sorted repoLe repos := by
  rcases run_ok_shape env fn st repos h with ⟨t, ht⟩
  rw [ht]
  exact buildRepos_sorted t

/-- C5, witness for the amended theorem at a concrete run. -/
theorem output_sorted_by_name_witness :
    List.Sorted repoLe
      [ { name := "aa", goPrefix := "aa", version := "v1", sum := "haa", replace := "" },
        { name := "bb", goPrefix := "bb", version := "v2", sum := "hbb", replace := "" },
        { name := "cc", goPrefix := "cc", version := "v4", sum := "hdd", replace := "dd" } ] :=
  output_sorted_by_name baseEnv "d/go.mod" baseSt
    [ { name := "aa", goPrefix := "aa", version := "v1", sum := "haa", replace := "" },
      { name := "bb", goPrefix := "bb", version := "v2", sum := "hbb", replace := "" },
      { name := "cc", goPrefix := "cc", version := "v4", sum := "hdd", replace := "dd" } ]
    (by decide)

/-- C6: a module record carrying a supported override to target path P and
version V that reaches the output emits a descriptor whose version is V
(the override's version, not the declared one) and whose redirect field is
P. -/
theorem override_version_and_redirect (table : List (String × Module)) (k : String)
    (m : Module) (r : Replace) (hmem : (k, m) ∈ table) (hr : m.replace = some r)
    (hs : m.sum ≠ "") :
    toRepo m ∈ (buildRepos table).1 ∧ (toRepo m).version = r.version ∧
      (toRepo m).replace = r.path := by
  refine ⟨(mem_buildRepos_fst _ _).mpr (keptRepos_mem table (k, m) hmem hs), ?_, ?_⟩ <;>
    simp [toRepo, hr]

/-- C6, witness: the replaced module of the base scenario. -/
theorem override_version_and_redirect_witness :
    toRepo { modRep with sum := "hdd" } ∈
        (buildRepos [("dd", { modRep with sum := "hdd" })]).1 ∧
      (toRepo { modRep with sum := "hdd" }).version = "v4" ∧
      (toRepo { modRep with sum := "hdd" }).replace = "dd" :=
  override_version_and_redirect [("dd", { modRep with sum := "hdd" })] "dd"
    { modRep with sum := "hdd" } { path := "dd", version := "v4" }
    (by decide) rfl (by decide)

/-- C7: every descriptor of a successful run has a non-empty checksum, and
a table record whose checksum is still empty is excluded from the builder's
output with a logged warning (the builder stage is total, so such records
never make the run fail). -/
theorem emptySum_dropped_with_warning (env : GoEnv) (fn : String) (st : St)
    (repos : List Repo) (h : (importRepoRulesModules env fn st).1 = .ok repos)
    (table : List (String × Module)) :
    (∀ r ∈ repos, r.sum ≠ "") ∧
    (∀ kv ∈ table, kv.2.sum = "" → sumWarning kv.2.path ∈ (buildRepos table).2) ∧
    (∀ r ∈ (buildRepos table).1, r.sum ≠ "") := by
  refine ⟨?_, ?_, ?_⟩
  · rcases run_ok_shape env fn st repos h with ⟨t, ht⟩
    rw [ht]
    exact fun r hr => buildRepos_sum_ne t r hr
  · intro kv hkv hs
    rw [buildRepos_eq]
    exact warnList_mem table kv hkv hs
  · exact fun r hr => buildRepos_sum_ne table r hr

/-- C7, witness: a run containing a module with no recoverable checksum
still succeeds, the module is dropped and the warning recorded. -/
theorem emptySum_dropped_with_warning_witness :
    ("haa" : String) ≠ "" ∧
    sumWarning "bb" ∈ (buildRepos [("aa", { modA with sum := "haa" }), ("bb", modB)]).2 := by
  refine ⟨?_, ?_⟩
  · exact (emptySum_dropped_with_warning baseEnv "d/go.mod" baseSt
      [ { name := "aa", goPrefix := "aa", version := "v1", sum := "haa", replace := "" },
        { name := "bb", goPrefix := "bb", version := "v2", sum := "hbb", replace := "" },
        { name := "cc", goPrefix := "cc", version := "v4", sum := "hdd", replace := "dd" } ]
      (by decide) []).1
      { name := "aa", goPrefix := "aa", version := "v1", sum := "haa", replace := "" }
      (by decide)
  · exact (emptySum_dropped_with_warning baseEnv "d/go.mod" baseSt
      [ { name := "aa", goPrefix := "aa", version := "v1", sum := "haa", replace := "" },
        { name := "bb", goPrefix := "bb", version := "v2", sum := "hbb", replace := "" },
        { name := "cc", goPrefix := "cc", version := "v4", sum := "hdd", replace := "dd" } ]
      (by decide)
      [("aa", { modA with sum := "haa" }), ("bb", modB)]).2.1
      ("bb", modB) (by decide) rfl

/-- C9: for an overridden module the derived name and the canonical import
path of the emitted descriptor are computed from the module's declared
path; only the version and the redirect field come from the override. -/
theorem override_keeps_declared_identity (table : List (String × Module)) (k : String)
    (m : Module) (r : Replace) (hmem : (k, m) ∈ table) (hr : m.replace = some r)
    (hs : m.sum ≠ "") :
    (toRepo m).name = importPathToBazelRepoName m.path ∧
    (toRepo m).goPrefix = m.path ∧
    (toRepo m).version = r.version ∧ (toRepo m).replace = r.path ∧
    toRepo m ∈ (buildRepos table).1 := by
  refine ⟨?_, ?_, ?_, ?_, (mem_buildRepos_fst _ _).mpr (keptRepos_mem table (k, m) hmem hs)⟩ <;>
    simp [toRepo, hr]

/-- C9, witness: the replaced module of the base scenario keeps its
declared identity. -/
theorem override_keeps_declared_identity_witness :
    (toRepo { modRep with sum := "hdd" }).name = importPathToBazelRepoName "cc" ∧
    (toRepo { modRep with sum := "hdd" }).goPrefix = "cc" := by
  have h := override_keeps_declared_identity [("dd", { modRep with sum := "hdd" })] "dd"
    { modRep with sum := "hdd" } { path := "dd", version := "v4" }
    (by decide) rfl (by decide)
  exact ⟨h.1, h.2.1⟩

end Gazelle
